import Mathlib

/-!
Verification of the repository-tree extraction routine of the UI generator
(`GitHubRepoExtractor.extract_frontend_files` in `src/main.py`), as a shallow
embedding. Network calls are modelled by an explicit environment `Remote`
mapping listing requests and raw-content requests to optional responses
(`none` models a non-success status, raised and caught as in the source).
Streamlit notices (`st.warning`, `st.error`, `st.sidebar.write`) are modelled
as an append-only message trace, and each listing request made is recorded in
a request trace, so that traversal properties can be stated about the traces.
The outer loop of the source is a `while` over an unbounded work queue; it is
embedded with an explicit fuel parameter, and a run that exhausts its fuel is
distinguished (`none`) from a run that drains the queue.
-/

namespace UIGen

/-- Checks whether the first list is an initial segment of the second
(used to locate separator occurrences, as Python `str.split` does). -/
def leadsWith : List Char → List Char → Bool
  | [], _ => true
  | _ :: _, [] => false
  | a :: as, b :: bs => a = b && leadsWith as bs

/-- If the first list is an initial segment of the second, return the rest of
the second list after removing it; otherwise return `none`. -/
def stripLead : List Char → List Char → Option (List Char)
  | [], s => some s
  | _ :: _, [] => none
  | a :: as, b :: bs => if a = b then stripLead as bs else none

/-- Python `str.split(sep)` for a non-empty separator, over character lists,
with a fuel argument (structural recursion so the kernel can evaluate it;
the fuel used by `pySplit` always suffices, since every step consumes at
least one character). -/
def splitAux (sep : List Char) : Nat → List Char → List Char → List (List Char)
  | 0, s, acc => [acc.reverse ++ s]
  | fuel + 1, s, acc =>
    if sep = [] then [acc.reverse ++ s]
    else
      match stripLead sep s with
      | some t => acc.reverse :: splitAux sep fuel t []
      | none =>
        match s with
        | [] => [acc.reverse]
        | c :: rest => splitAux sep fuel rest (c :: acc)

/-- Python `s.split(sep)` for a non-empty separator string. -/
def pySplit (sep s : String) : List String :=
  (splitAux sep.toList (s.toList.length + 1) s.toList []).map String.mk

/-- Index of the last occurrence of a character in a list
(Python `str.rfind` restricted to what `pathlib` needs). -/
def lastIdxOf (c : Char) : List Char → Option Nat
  | [] => none
  | a :: rest =>
    match lastIdxOf c rest with
    | some i => some (i + 1)
    | none => if a = c then some 0 else none

/-- Python `pathlib.Path(s).name`: the final path component, with empty
components and lone-dot components dropped as `pathlib` normalisation does. -/
def pyName (s : String) : String :=
  (((pySplit "/" s).filter (fun c => c != "" && c != ".")).getLastD "")

/-- Python `pathlib.Path(s).suffix`: the final dot-separated extension of the
final component, including the dot; empty when the component has no dot, or
the only dot is leading (hidden files) or trailing. -/
def pySuffix (s : String) : String :=
  let name := (pyName s).toList
  match lastIdxOf '.' name with
  | some i => if 0 < i ∧ i + 1 < name.length then String.mk (name.drop i) else ""
  | none => ""

/-- One item of a GitHub contents-API listing response
(`type`, `path`, `name`, `download_url` fields, as read by the source). -/
structure Entry where
  type : String
  path : String
  name : String
  download_url : String
  deriving DecidableEq, Repr

/-- A contents-API response body: a single JSON object (single file) or a
JSON array (directory listing) — the shape the source distinguishes with its
`isinstance(contents, list)` check. -/
inductive Listing where
  | single (e : Entry)
  | multi (es : List Entry)
  deriving DecidableEq, Repr

/-- The remote GitHub endpoints, as an explicit environment: `listing` is
`get_repo_contents` (by owner, repository and path) and `content` is
`get_file_content` (by download URL). `none` models a non-success status,
which the source raises and the caller catches. -/
structure Remote where
  listing : String → String → String → Option Listing
  content : String → Option String

/-- Notices surfaced to the user during a run, in emission order:
`found` is the sidebar progress line, `contentWarn` the per-file fetch
warning, `listingWarn` the per-directory warning, `noFilesWarn` the
no-frontend-files warning, `extractErr` the outer error message. -/
inductive Msg where
  | found (path : String)
  | contentWarn (path : String)
  | listingWarn (path : String)
  | noFilesWarn
  | extractErr
  deriving DecidableEq, Repr

/-- A matched file record, as the source builds it: a dictionary with keys
path, content and type, where the `type` key holds the extension string. -/
structure FileRec where
  path : String
  content : String
  type : String
  deriving DecidableEq, Repr

/-- The allow-list of frontend extensions (`frontend_extensions` in the
source). -/
def frontend_extensions : List String :=
  [".html", ".css", ".js", ".jsx", ".tsx", ".vue", ".py"]

/-- The body of the `for item in contents` loop of the source: a directory
entry is enqueued at the back of the work queue; a file entry whose name has
an allow-listed extension is fetched, appending one record on success and one
warning on failure; any other entry is ignored. -/
def processItem (env : Remote) (item : Entry)
    (acc : List (String × List Entry) × List FileRec × List Msg) :
    List (String × List Entry) × List FileRec × List Msg :=
  let (q, files, msgs) := acc
  if item.type = "dir" then
    (q ++ [(item.path, ([] : List Entry))], files, msgs)
  else if item.type = "file" then
    if pySuffix item.name ∈ frontend_extensions then
      match env.content item.download_url with
      | some text =>
        (q, files ++ [⟨item.path, text, pySuffix item.name⟩],
          msgs ++ [Msg.found item.path])
      | none => (q, files, msgs ++ [Msg.contentWarn item.path])
    else (q, files, msgs)
  else (q, files, msgs)

/-- Normalisation of a response to a list of entries
(`if not isinstance(contents, list): contents = [contents]`). -/
def normalizeContents : Listing → List Entry
  | .single e => [e]
  | .multi es => es

/-- The final state of a drained walk: collected records, emitted notices,
the visited set (in visit order) and the trace of listing requests made. -/
structure FinalOut where
  files : List FileRec
  msgs : List Msg
  processed : List String
  reqs : List String
  deriving DecidableEq, Repr

/-- The `while to_process:` loop of the source. The queue is popped at the
front; a path already processed is skipped; otherwise it is marked processed
and its listing requested (recorded in the request trace). A failed listing
appends one warning and continues; a successful one is normalised and folded
through `processItem`. `none` means the fuel ran out before the queue
drained. -/
def extractLoop (env : Remote) (owner repo : String) :
    Nat → List (String × List Entry) → List String → List FileRec →
    List Msg → List String → Option FinalOut
  | 0, _, _, _, _, _ => none
  | _ + 1, [], processed, files, msgs, reqs => some ⟨files, msgs, processed, reqs⟩
  | fuel + 1, (currentPath, _) :: rest, processed, files, msgs, reqs =>
    if currentPath ∈ processed then
      extractLoop env owner repo fuel rest processed files msgs reqs
    else
      match env.listing owner repo currentPath with
      | none =>
        extractLoop env owner repo fuel rest (processed ++ [currentPath]) files
          (msgs ++ [Msg.listingWarn currentPath]) (reqs ++ [currentPath])
      | some resp =>
        match (normalizeContents resp).foldl
            (fun acc item => processItem env item acc) (rest, files, msgs) with
        | (q2, files2, msgs2) =>
          extractLoop env owner repo fuel q2 (processed ++ [currentPath])
            files2 msgs2 (reqs ++ [currentPath])

/-- URL parsing of the source: split the URL on the host marker
`github.com/`, take the last piece, and split that on slashes. -/
def parseParts (repo_url : String) : List String :=
  pySplit "/" ((pySplit "github.com/" repo_url).getLastD "")

/-- The observable outcome of one call: the returned value (`none` is the
Python `None` return), the notices emitted and the listing requests made. -/
structure RunResult where
  result : Option (List FileRec)
  msgs : List Msg
  reqs : List String
  deriving DecidableEq, Repr

/-- The return step of the source after the queue drains:
`if not frontend_files: warn; return None` else return the collection. -/
def finishRun (out : FinalOut) : RunResult :=
  if out.files = [] then ⟨none, out.msgs ++ [Msg.noFilesWarn], out.reqs⟩
  else ⟨some out.files, out.msgs, out.reqs⟩

/-- The embedding of `extract_frontend_files` of the source. A URL whose parsed parts have
fewer than two segments raises at `parts[1]`; the outer handler catches it,
surfaces an error and returns `None` (here: result `none` with `extractErr`).
Otherwise the walk runs from the root path; when it drains, an empty
collection yields `None` with a warning, a non-empty one is returned as-is.
The outer `Option` is `none` only when the walk did not drain within the
given fuel. -/
def extract_frontend_files (env : Remote) (fuel : Nat) (repo_url : String) :
    Option RunResult :=
  match parseParts repo_url with
  | owner :: repo_name :: _ =>
    (extractLoop env owner repo_name fuel [("", [])] [] [] [] []).map finishRun
  | _ => some ⟨none, [Msg.extractErr], []⟩

/-- The work-queue items one entry contributes (a directory entry is enqueued
with an empty attachment list, anything else contributes nothing). -/
def entryDirs (item : Entry) : List (String × List Entry) :=
  if item.type = "dir" then [(item.path, ([] : List Entry))] else []

/-- The records one entry contributes: exactly one on a matching file whose
fetch succeeds, none otherwise. -/
def entryRecs (env : Remote) (item : Entry) : List FileRec :=
  if item.type = "dir" then []
  else if item.type = "file" then
    if pySuffix item.name ∈ frontend_extensions then
      match env.content item.download_url with
      | some text => [⟨item.path, text, pySuffix item.name⟩]
      | none => []
    else []
  else []

/-- The notices one entry contributes. -/
def entryMsgs (env : Remote) (item : Entry) : List Msg :=
  if item.type = "dir" then []
  else if item.type = "file" then
    if pySuffix item.name ∈ frontend_extensions then
      match env.content item.download_url with
      | some _ => [Msg.found item.path]
      | none => [Msg.contentWarn item.path]
    else []
  else []

/-- The work-queue items contributed by one normalised listing, in entry
order. -/
def listingDirs : List Entry → List (String × List Entry)
  | [] => []
  | item :: rest => entryDirs item ++ listingDirs rest

/-- The records contributed by one normalised listing, in entry order
(the discovery order within that directory). -/
def listingRecs (env : Remote) : List Entry → List FileRec
  | [] => []
  | item :: rest => entryRecs env item ++ listingRecs env rest

/-- The notices contributed by one normalised listing, in entry order. -/
def listingMsgs (env : Remote) : List Entry → List Msg
  | [] => []
  | item :: rest => entryMsgs env item ++ listingMsgs env rest

/-! Concrete environments used as witnesses and counterexamples. -/

/-- A remote on which every request fails (unreachable endpoints). -/
def envDown : Remote where
  listing := fun _ _ _ => none
  content := fun _ => none

/-- A repository whose only file has a non-allow-listed extension. -/
def envNoMatch : Remote where
  listing := fun _ _ p =>
    if p = "" then some (.multi [⟨"file", "README.md", "README.md", "u0"⟩])
    else none
  content := fun _ => none

/-- The worked example of the specification: one directory `src` holding
`src/app.js` and one top-level non-matching `README.md`. -/
def envExample : Remote where
  listing := fun _ _ p =>
    if p = "" then
      some (.multi [⟨"dir", "src", "src", ""⟩, ⟨"file", "README.md", "README.md", "u0"⟩])
    else if p = "src" then some (.multi [⟨"file", "src/app.js", "app.js", "u1"⟩])
    else none
  content := fun u => if u = "u1" then some "console.log(1)" else none

/-- The same remote as `envExample`, written with a syntactically different
but pointwise-equal content table (used to instantiate determinism). -/
def envExampleCopy : Remote where
  listing := fun _ _ p =>
    if p = "" then
      some (.multi [⟨"dir", "src", "src", ""⟩, ⟨"file", "README.md", "README.md", "u0"⟩])
    else if p = "src" then some (.multi [⟨"file", "src/app.js", "app.js", "u1"⟩])
    else none
  content := fun u =>
    if u = "u1" then some (String.append "console." "log(1)") else none

/-- Two sibling directories where the listing of `a` fails while `b` holds a
matching file. -/
def envSibling : Remote where
  listing := fun _ _ p =>
    if p = "" then some (.multi [⟨"dir", "a", "a", ""⟩, ⟨"dir", "b", "b", ""⟩])
    else if p = "b" then some (.multi [⟨"file", "b/x.js", "x.js", "u2"⟩])
    else none
  content := fun u => if u = "u2" then some "X" else none

/-- Two matching files where the content fetch of the first fails. -/
def envBadGood : Remote where
  listing := fun _ _ p =>
    if p = "" then
      some (.multi [⟨"file", "bad.js", "bad.js", "u3"⟩, ⟨"file", "good.js", "good.js", "u4"⟩])
    else none
  content := fun u => if u = "u4" then some "G" else none

/-- A two-level tree distinguishing breadth-first from depth-first order:
the nested directory `a/c` is listed after both top-level siblings. -/
def envNested : Remote where
  listing := fun _ _ p =>
    if p = "" then
      some (.multi [⟨"dir", "a", "a", ""⟩, ⟨"dir", "b", "b", ""⟩,
        ⟨"file", "top.js", "top.js", "u5"⟩])
    else if p = "a" then
      some (.multi [⟨"dir", "a/c", "c", ""⟩, ⟨"file", "a/f1.js", "f1.js", "u6"⟩])
    else if p = "b" then some (.multi [⟨"file", "b/f2.js", "f2.js", "u7"⟩])
    else if p = "a/c" then some (.multi [⟨"file", "a/c/f3.js", "f3.js", "u8"⟩])
    else none
  content := fun u =>
    if u = "u5" then some "T" else if u = "u6" then some "F1"
    else if u = "u7" then some "F2" else if u = "u8" then some "F3" else none

/-- A root listing that is a single object (single-file response). -/
def envSingleObj : Remote where
  listing := fun _ _ p =>
    if p = "" then some (.single ⟨"file", "only.py", "only.py", "u9"⟩) else none
  content := fun u => if u = "u9" then some "print(1)" else none

/-- The same repository as `envSingleObj`, but with the root response already
an array holding that one entry. -/
def envSingleArr : Remote where
  listing := fun _ _ p =>
    if p = "" then some (.multi [⟨"file", "only.py", "only.py", "u9"⟩]) else none
  content := fun u => if u = "u9" then some "print(1)" else none

/-! Decomposition of the per-entry loop body and the queue step. -/

/-- The loop body `processItem` only appends: its effect on an accumulator is described by
the per-entry contribution functions. -/
theorem processItem_eq (env : Remote) (item : Entry)
    (q : List (String × List Entry)) (files : List FileRec) (msgs : List Msg) :
    processItem env item (q, files, msgs)
      = (q ++ entryDirs item, files ++ entryRecs env item,
          msgs ++ entryMsgs env item) := by
  unfold processItem entryDirs entryRecs entryMsgs
  by_cases h1 : item.type = "dir" <;> simp only [h1, if_true, if_false]
  · simp
  · by_cases h2 : item.type = "file" <;> simp only [h2, if_true, if_false]
    · by_cases h3 : pySuffix item.name ∈ frontend_extensions <;>
        simp only [h3, if_true, if_false]
      · cases h4 : env.content item.download_url <;> simp [h4]
      · simp
    · simp

/-- Folding the loop body over a listing appends the contributions of that listing
to each accumulator, preserving their previous contents and order. -/
theorem foldl_processItem (env : Remote) (l : List Entry)
    (q : List (String × List Entry)) (files : List FileRec) (msgs : List Msg) :
    l.foldl (fun acc item => processItem env item acc) (q, files, msgs)
      = (q ++ listingDirs l, files ++ listingRecs env l,
          msgs ++ listingMsgs env l) := by
  induction l generalizing q files msgs with
  | nil => simp [listingDirs, listingRecs, listingMsgs]
  | cons item rest ih =>
    rw [List.foldl_cons, processItem_eq, ih]
    simp [listingDirs, listingRecs, listingMsgs]

/-- A dequeued path that is already in the visited set is skipped: the loop
continues on the remaining queue with every accumulator unchanged. -/
theorem extractLoop_skip (env : Remote) (o r : String) (fuel : Nat)
    (p : String) (fs : List Entry) (rest : List (String × List Entry))
    (processed : List String) (files : List FileRec) (msgs : List Msg)
    (reqs : List String) (h : p ∈ processed) :
    extractLoop env o r (fuel + 1) ((p, fs) :: rest) processed files msgs reqs
      = extractLoop env o r fuel rest processed files msgs reqs := by
  simp [extractLoop, h]

/-- A fresh path whose listing request fails is marked visited and requested,
one warning is appended, and the loop continues on the remaining queue. -/
theorem extractLoop_fail (env : Remote) (o r : String) (fuel : Nat)
    (p : String) (fs : List Entry) (rest : List (String × List Entry))
    (processed : List String) (files : List FileRec) (msgs : List Msg)
    (reqs : List String) (h1 : p ∉ processed) (h2 : env.listing o r p = none) :
    extractLoop env o r (fuel + 1) ((p, fs) :: rest) processed files msgs reqs
      = extractLoop env o r fuel rest (processed ++ [p]) files
          (msgs ++ [Msg.listingWarn p]) (reqs ++ [p]) := by
  simp [extractLoop, h1, h2]

/-- A fresh path whose listing request succeeds is marked visited and
requested; its subdirectories are appended at the back of the queue and its
records and notices at the back of their accumulators, in entry order. -/
theorem extractLoop_success (env : Remote) (o r : String) (fuel : Nat)
    (p : String) (fs : List Entry) (rest : List (String × List Entry))
    (processed : List String) (files : List FileRec) (msgs : List Msg)
    (reqs : List String) (resp : Listing)
    (h1 : p ∉ processed) (h2 : env.listing o r p = some resp) :
    extractLoop env o r (fuel + 1) ((p, fs) :: rest) processed files msgs reqs
      = extractLoop env o r fuel
          (rest ++ listingDirs (normalizeContents resp)) (processed ++ [p])
          (files ++ listingRecs env (normalizeContents resp))
          (msgs ++ listingMsgs env (normalizeContents resp)) (reqs ++ [p]) := by
  simp [extractLoop, h1, h2, foldl_processItem]

/-! Loop invariants, by induction on the fuel. -/

/-- If the request trace mirrors the visited set and the visited set has no
duplicates, both remain so when the loop drains: no path is ever requested
twice. -/
theorem extractLoop_reqs_nodup (env : Remote) (o r : String) :
    ∀ fuel (q : List (String × List Entry)) (processed : List String)
      (files : List FileRec) (msgs : List Msg) (reqs : List String)
      (out : FinalOut),
      extractLoop env o r fuel q processed files msgs reqs = some out →
      reqs = processed → processed.Nodup → out.reqs.Nodup := by
  intro fuel
  induction fuel with
  | zero =>
    intro q processed files msgs reqs out h
    simp [extractLoop] at h
  | succ n ih =>
    intro q processed files msgs reqs out h hreq hnd
    match q with
    | [] =>
      simp only [extractLoop, Option.some.injEq] at h
      subst h
      simpa [hreq] using hnd
    | (p, fs) :: rest =>
      by_cases hp : p ∈ processed
      · rw [extractLoop_skip env o r n p fs rest processed files msgs reqs hp] at h
        exact ih rest processed files msgs reqs out h hreq hnd
      · cases hl : env.listing o r p with
        | none =>
          rw [extractLoop_fail env o r n p fs rest processed files msgs reqs hp hl] at h
          refine ih _ _ _ _ _ _ h (by rw [hreq]) ?_
          rw [← List.concat_eq_append]
          exact hnd.concat hp
        | some resp =>
          rw [extractLoop_success env o r n p fs rest processed files msgs reqs resp hp hl] at h
          refine ih _ _ _ _ _ _ h (by rw [hreq]) ?_
          rw [← List.concat_eq_append]
          exact hnd.concat hp

/-- A listing none of whose entries is a file with an allow-listed extension
contributes no records. -/
theorem listingRecs_nil_of_no_match (env : Remote) :
    ∀ l : List Entry,
      (∀ item ∈ l,
        ¬(item.type = "file" ∧ pySuffix item.name ∈ frontend_extensions)) →
      listingRecs env l = [] := by
  intro l hl
  induction l with
  | nil => rfl
  | cons item rest ih =>
    have hitem := hl item (by simp)
    have hrest : listingRecs env rest = [] :=
      ih (fun x hx => hl x (by simp [hx]))
    rw [listingRecs, hrest]
    unfold entryRecs
    by_cases h1 : item.type = "dir" <;> simp only [h1, if_true, if_false]
    · simp
    · by_cases h2 : item.type = "file" <;> simp only [h2, if_true, if_false]
      · have h3 : pySuffix item.name ∉ frontend_extensions := fun hmem =>
          hitem ⟨h2, hmem⟩
        simp [h3]
      · simp

/-- When no listing of the remote holds a file with an allow-listed
extension, the record accumulator never grows. -/
theorem extractLoop_files_fixed (env : Remote) (o r : String)
    (hno : ∀ o' r' p resp, env.listing o' r' p = some resp →
      ∀ item ∈ normalizeContents resp,
        ¬(item.type = "file" ∧ pySuffix item.name ∈ frontend_extensions)) :
    ∀ fuel (q : List (String × List Entry)) (processed : List String)
      (files : List FileRec) (msgs : List Msg) (reqs : List String)
      (out : FinalOut),
      extractLoop env o r fuel q processed files msgs reqs = some out →
      out.files = files := by
  intro fuel
  induction fuel with
  | zero =>
    intro q processed files msgs reqs out h
    simp [extractLoop] at h
  | succ n ih =>
    intro q processed files msgs reqs out h
    match q with
    | [] =>
      simp only [extractLoop, Option.some.injEq] at h
      subst h
      rfl
    | (p, fs) :: rest =>
      by_cases hp : p ∈ processed
      · rw [extractLoop_skip env o r n p fs rest processed files msgs reqs hp] at h
        exact ih rest processed files msgs reqs out h
      · cases hl : env.listing o r p with
        | none =>
          rw [extractLoop_fail env o r n p fs rest processed files msgs reqs hp hl] at h
          exact ih _ _ _ _ _ _ h
        | some resp =>
          rw [extractLoop_success env o r n p fs rest processed files msgs reqs resp hp hl] at h
          have hrecs : listingRecs env (normalizeContents resp) = [] :=
            listingRecs_nil_of_no_match env _ (hno o r p resp hl)
          rw [hrecs, List.append_nil] at h
          exact ih _ _ _ _ _ _ h

/-- The per-entry notices are only progress lines and per-item warnings;
the outer error notice never occurs among them. -/
theorem extractErr_not_mem_listingMsgs (env : Remote) :
    ∀ l : List Entry, Msg.extractErr ∉ listingMsgs env l := by
  intro l
  induction l with
  | nil => simp [listingMsgs]
  | cons item rest ih =>
    rw [listingMsgs]
    intro hmem
    rcases List.mem_append.mp hmem with hco | hco
    · unfold entryMsgs at hco
      by_cases h1 : item.type = "dir" <;> simp only [h1, if_true, if_false] at hco
      · exact (List.not_mem_nil _ hco)
      · by_cases h2 : item.type = "file" <;> simp only [h2, if_true, if_false] at hco
        · by_cases h3 : pySuffix item.name ∈ frontend_extensions <;>
            simp only [h3, if_true, if_false] at hco
          · cases h4 : env.content item.download_url <;> rw [h4] at hco <;>
              simp at hco
          · exact (List.not_mem_nil _ hco)
        · exact (List.not_mem_nil _ hco)
    · exact ih hco

/-- The loop never emits the outer error notice. -/
theorem extractLoop_no_extractErr (env : Remote) (o r : String) :
    ∀ fuel (q : List (String × List Entry)) (processed : List String)
      (files : List FileRec) (msgs : List Msg) (reqs : List String)
      (out : FinalOut),
      extractLoop env o r fuel q processed files msgs reqs = some out →
      Msg.extractErr ∉ msgs → Msg.extractErr ∉ out.msgs := by
  intro fuel
  induction fuel with
  | zero =>
    intro q processed files msgs reqs out h
    simp [extractLoop] at h
  | succ n ih =>
    intro q processed files msgs reqs out h hmsgs
    match q with
    | [] =>
      simp only [extractLoop, Option.some.injEq] at h
      subst h
      exact hmsgs
    | (p, fs) :: rest =>
      by_cases hp : p ∈ processed
      · rw [extractLoop_skip env o r n p fs rest processed files msgs reqs hp] at h
        exact ih rest processed files msgs reqs out h hmsgs
      · cases hl : env.listing o r p with
        | none =>
          rw [extractLoop_fail env o r n p fs rest processed files msgs reqs hp hl] at h
          refine ih _ _ _ _ _ _ h ?_
          intro hmem
          rcases List.mem_append.mp hmem with hco | hco
          · exact hmsgs hco
          · simp at hco
        | some resp =>
          rw [extractLoop_success env o r n p fs rest processed files msgs reqs resp hp hl] at h
          refine ih _ _ _ _ _ _ h ?_
          intro hmem
          rcases List.mem_append.mp hmem with hco | hco
          · exact hmsgs hco
          · exact extractErr_not_mem_listingMsgs env _ hco

/-- A URL whose parsed parts hold fewer than two segments takes the outer
error branch: the call returns normally with the `None` result and one error
notice, for any remote and any fuel. -/
theorem extract_malformed_eq (env : Remote) (fuel : Nat) (url : String)
    (h : (parseParts url).length < 2) :
    extract_frontend_files env fuel url = some ⟨none, [Msg.extractErr], []⟩ := by
  unfold extract_frontend_files
  match hp : parseParts url with
  | [] => rfl
  | [a] => rfl
  | a :: b :: t => rw [hp] at h; simp at h; omega

/-- Inversion of a completed call on a well-formed URL: the returned value is
the finish step applied to some drained walk. -/
theorem extract_some_inv (env : Remote) (fuel : Nat) (url : String)
    (owner repo : String) (t : List String) (out : RunResult)
    (hp : parseParts url = owner :: repo :: t)
    (h : extract_frontend_files env fuel url = some out) :
    ∃ fout, extractLoop env owner repo fuel [("", [])] [] [] [] [] = some fout
      ∧ finishRun fout = out := by
  unfold extract_frontend_files at h
  rw [hp] at h
  simp only [Option.map_eq_some'] at h
  exact h

/-- The request trace of the finish step is the request trace of the walk. -/
theorem finishRun_reqs (out : FinalOut) : (finishRun out).reqs = out.reqs := by
  unfold finishRun
  by_cases hf : out.files = [] <;> simp [hf]

/-- The result of the finish step: `none` exactly on an empty collection. -/
theorem finishRun_result (out : FinalOut) :
    (finishRun out).result = if out.files = [] then none else some out.files := by
  unfold finishRun
  by_cases hf : out.files = [] <;> simp [hf]

/-- The notices of the finish step: the notices of the walk, with the
no-matching-files warning appended exactly on an empty collection. -/
theorem finishRun_msgs (out : FinalOut) :
    (finishRun out).msgs
      = if out.files = [] then out.msgs ++ [Msg.noFilesWarn] else out.msgs := by
  unfold finishRun
  by_cases hf : out.files = [] <;> simp [hf]

/-! The claims. -/

/-- Claim C1: for every sequence of remote directory listings, duplicate or
cyclic directory entries included, a completed call of
`extract_frontend_files` requested the listing of each directory path at
most once — its request trace has no duplicate path. (A dequeued path
already in the visited set is skipped by the loop and contributes no further
request or record, which is what the `extractLoop_skip` step equation
records.) -/
theorem extract_visits_each_path_at_most_once
    (env : Remote) (fuel : Nat) (url : String) (out : RunResult)
    (h : extract_frontend_files env fuel url = some out) :
    out.reqs.Nodup := by
  cases hp : parseParts url with
  | nil =>
    rw [extract_malformed_eq env fuel url (by rw [hp]; simp)] at h
    have heq := Option.some.inj h
    rw [← heq]
    simp
  | cons a t =>
    cases t with
    | nil =>
      rw [extract_malformed_eq env fuel url (by rw [hp]; simp)] at h
      have heq := Option.some.inj h
      rw [← heq]
      simp
    | cons b t2 =>
      obtain ⟨fout, hl, hfin⟩ := extract_some_inv env fuel url a b t2 out hp h
      have hnd : fout.reqs.Nodup :=
        extractLoop_reqs_nodup env a b fuel [("", [])] [] [] [] [] fout hl rfl
          (by simp)
      rw [← hfin, finishRun_reqs]
      exact hnd

/-- Claim C1 witness: the worked example of the specification completes with
a duplicate-free request trace containing the root and the one subdirectory. -/
theorem extract_visits_each_path_at_most_once_witness :
    (⟨some [⟨"src/app.js", "console.log(1)", ".js"⟩],
      [Msg.found "src/app.js"], ["", "src"]⟩ : RunResult).reqs.Nodup :=
  extract_visits_each_path_at_most_once envExample 3
    "https://github.com/acme/widgets" _ rfl

/-- Claim C2 counterexample: on the concrete malformed URL
`https://github.com/acme` the call does not fail — it returns normally, and
the value it returns is the null result `none`, the very value that a
repository with zero matching files also returns; so the outcome of a
malformed URL is not a fatal failure distinct from the null result. -/
theorem malformed_url_not_fatal_counterexample :
    extract_frontend_files envDown 2 "https://github.com/acme"
        = some ⟨none, [Msg.extractErr], []⟩
      ∧ (extract_frontend_files envDown 2 "https://github.com/acme").map
            RunResult.result
          = (extract_frontend_files envNoMatch 2
              "https://github.com/acme/widgets").map RunResult.result :=
  ⟨rfl, rfl⟩

/-- Claim C2 (amended): for every URL with fewer than two path segments after
the host marker, the raised indexing error is caught by the outer handler,
which surfaces the malformed-repository error notice — distinct from the
no-matching-files warning — and returns the null result `none`; the call
returns normally rather than failing fatally, for any remote and any fuel. -/
theorem malformed_url_caught_and_reported (env : Remote) (fuel : Nat)
    (url : String) (h : (parseParts url).length < 2) :
    extract_frontend_files env fuel url = some ⟨none, [Msg.extractErr], []⟩ :=
  extract_malformed_eq env fuel url h

/-- Claim C2 witness: the single-segment URL of the worked example. -/
theorem malformed_url_caught_and_reported_witness :
    (parseParts "https://github.com/acme").length < 2
      ∧ extract_frontend_files envDown 2 "https://github.com/acme"
          = some ⟨none, [Msg.extractErr], []⟩ :=
  ⟨by decide, malformed_url_caught_and_reported envDown 2
    "https://github.com/acme" (by decide)⟩

/-- Claim C3: when no listing of the remote holds a file with an allow-listed
extension, a completed call on a well-formed URL returns the null result
`none` and surfaces no error notice (only warnings at most); the null result
is not a failure. -/
theorem no_matching_files_returns_none
    (env : Remote) (fuel : Nat) (url : String) (owner repo : String)
    (t : List String) (out : RunResult)
    (hp : parseParts url = owner :: repo :: t)
    (hno : ∀ o' r' p resp, env.listing o' r' p = some resp →
      ∀ item ∈ normalizeContents resp,
        ¬(item.type = "file" ∧ pySuffix item.name ∈ frontend_extensions))
    (h : extract_frontend_files env fuel url = some out) :
    out.result = none ∧ Msg.extractErr ∉ out.msgs := by
  obtain ⟨fout, hl, hfin⟩ := extract_some_inv env fuel url owner repo t out hp h
  have hfiles : fout.files = [] :=
    extractLoop_files_fixed env owner repo hno fuel _ _ _ _ _ _ hl
  have hmsgs : Msg.extractErr ∉ fout.msgs :=
    extractLoop_no_extractErr env owner repo fuel _ _ _ _ _ _ hl (by simp)
  constructor
  · rw [← hfin, finishRun_result, if_pos hfiles]
  · rw [← hfin, finishRun_msgs, if_pos hfiles]
    intro hmem
    rcases List.mem_append.mp hmem with hco | hco
    · exact hmsgs hco
    · simp at hco

/-- Claim C3 witness: a repository holding only `README.md` returns the null
result with just the no-matching-files warning. -/
theorem no_matching_files_returns_none_witness :
    (⟨none, [Msg.noFilesWarn], [""]⟩ : RunResult).result = none
      ∧ Msg.extractErr ∉ (⟨none, [Msg.noFilesWarn], [""]⟩ : RunResult).msgs :=
  no_matching_files_returns_none envNoMatch 2 "https://github.com/acme/widgets"
    "acme" "widgets" [] _ rfl
    (fun o' r' p resp hresp item hitem => by
      by_cases hpp : p = ""
      · simp only [envNoMatch, hpp, if_pos, Option.some.injEq] at hresp
        subst hresp
        simp only [normalizeContents, List.mem_singleton] at hitem
        subst hitem
        decide
      · simp [envNoMatch, hpp] at hresp)
    rfl

/-- Claim C4: a file entry whose name has an allow-listed extension and whose
content fetch succeeds contributes exactly one record, holding the path of
the entry, the fetched text, and the extension; and on the worked example
(directory `src` holding `src/app.js` next to a non-matching `README.md`) the
whole extraction returns exactly the one record for `src/app.js`. -/
theorem matching_file_yields_single_record :
    (∀ (env : Remote) (item : Entry) (q : List (String × List Entry))
        (files : List FileRec) (msgs : List Msg) (text : String),
      item.type = "file" → pySuffix item.name ∈ frontend_extensions →
      env.content item.download_url = some text →
      processItem env item (q, files, msgs)
        = (q, files ++ [⟨item.path, text, pySuffix item.name⟩],
            msgs ++ [Msg.found item.path]))
    ∧ extract_frontend_files envExample 3 "https://github.com/acme/widgets"
        = some ⟨some [⟨"src/app.js", "console.log(1)", ".js"⟩],
            [Msg.found "src/app.js"], ["", "src"]⟩ := by
  constructor
  · intro env item q files msgs text h1 h2 h3
    simp [processItem_eq, entryDirs, entryRecs, entryMsgs, h1, h2, h3]
  · rfl

/-- Claim C4 witness: the `src/app.js` entry of the worked example. -/
theorem matching_file_yields_single_record_witness :
    processItem envExample ⟨"file", "src/app.js", "app.js", "u1"⟩ ([], [], [])
      = ([], [⟨"src/app.js", "console.log(1)", ".js"⟩],
          [Msg.found "src/app.js"]) :=
  matching_file_yields_single_record.1 envExample
    ⟨"file", "src/app.js", "app.js", "u1"⟩ [] [] [] "console.log(1)"
    rfl (by decide) rfl

/-- Claim C5: when the directory-listing fetch fails for a dequeued fresh
path, exactly one per-directory warning is recorded and the loop continues on
the remaining queue with the collected records untouched — the walk does not
abort; and on a concrete pair of siblings where the listing of `a` fails, the
matching file of `b` still appears in the returned collection. -/
theorem listing_failure_skips_directory_only :
    (∀ (env : Remote) (o r : String) (fuel : Nat) (p : String)
        (fs : List Entry) (rest : List (String × List Entry))
        (processed : List String) (files : List FileRec) (msgs : List Msg)
        (reqs : List String),
      p ∉ processed → env.listing o r p = none →
      extractLoop env o r (fuel + 1) ((p, fs) :: rest) processed files msgs reqs
        = extractLoop env o r fuel rest (processed ++ [p]) files
            (msgs ++ [Msg.listingWarn p]) (reqs ++ [p]))
    ∧ extract_frontend_files envSibling 4 "https://github.com/acme/widgets"
        = some ⟨some [⟨"b/x.js", "X", ".js"⟩],
            [Msg.listingWarn "a", Msg.found "b/x.js"], ["", "a", "b"]⟩ :=
  ⟨fun env o r fuel p fs rest processed files msgs reqs h1 h2 =>
    extractLoop_fail env o r fuel p fs rest processed files msgs reqs h1 h2,
    rfl⟩

/-- Claim C5 witness: the failing sibling `a` of the concrete scenario. -/
theorem listing_failure_skips_directory_only_witness :
    extractLoop envSibling "acme" "widgets" (2 + 1)
        [("a", []), ("b", [])] [""] [] [] [""]
      = extractLoop envSibling "acme" "widgets" 2 [("b", [])] ([""] ++ ["a"])
          [] ([] ++ [Msg.listingWarn "a"]) ([""] ++ ["a"]) :=
  listing_failure_skips_directory_only.1 envSibling "acme" "widgets" 2 "a" []
    [("b", [])] [""] [] [] [""] (by decide) rfl

/-- Claim C6: a matching file whose content fetch fails contributes no record
at all — only one per-file warning — and the loop body leaves the work queue
and the collected records exactly as they were, so every other file is still
fetched and collected; on a concrete listing where the first of two matching
files fails, the returned collection holds exactly the second. -/
theorem content_failure_adds_no_record :
    (∀ (env : Remote) (item : Entry) (q : List (String × List Entry))
        (files : List FileRec) (msgs : List Msg),
      item.type = "file" → pySuffix item.name ∈ frontend_extensions →
      env.content item.download_url = none →
      processItem env item (q, files, msgs)
        = (q, files, msgs ++ [Msg.contentWarn item.path]))
    ∧ extract_frontend_files envBadGood 2 "https://github.com/acme/widgets"
        = some ⟨some [⟨"good.js", "G", ".js"⟩],
            [Msg.contentWarn "bad.js", Msg.found "good.js"], [""]⟩ := by
  constructor
  · intro env item q files msgs h1 h2 h3
    simp [processItem_eq, entryDirs, entryRecs, entryMsgs, h1, h2, h3]
  · rfl

/-- Claim C6 witness: the failing `bad.js` entry of the concrete scenario. -/
theorem content_failure_adds_no_record_witness :
    processItem envBadGood ⟨"file", "bad.js", "bad.js", "u3"⟩ ([], [], [])
      = ([], [], [Msg.contentWarn "bad.js"]) :=
  content_failure_adds_no_record.1 envBadGood
    ⟨"file", "bad.js", "bad.js", "u3"⟩ [] [] [] rfl (by decide) rfl

/-- Claim C7: the work queue is FIFO — one loop step dequeues the front path
and appends the newly found subdirectories behind every path already
enqueued, and appends the new records and notices behind the already
collected ones, in entry order (discovery order); on a concrete two-level
tree the listing requests happen in breadth-first order (`b` before the
nested `a/c`) and the returned records are in discovery order. -/
theorem queue_fifo_and_discovery_order :
    (∀ (env : Remote) (o r : String) (fuel : Nat) (p : String)
        (fs : List Entry) (rest : List (String × List Entry))
        (processed : List String) (files : List FileRec) (msgs : List Msg)
        (reqs : List String) (resp : Listing),
      p ∉ processed → env.listing o r p = some resp →
      extractLoop env o r (fuel + 1) ((p, fs) :: rest) processed files msgs reqs
        = extractLoop env o r fuel
            (rest ++ listingDirs (normalizeContents resp)) (processed ++ [p])
            (files ++ listingRecs env (normalizeContents resp))
            (msgs ++ listingMsgs env (normalizeContents resp)) (reqs ++ [p]))
    ∧ extract_frontend_files envNested 5 "https://github.com/acme/widgets"
        = some ⟨some [⟨"top.js", "T", ".js"⟩, ⟨"a/f1.js", "F1", ".js"⟩,
            ⟨"b/f2.js", "F2", ".js"⟩, ⟨"a/c/f3.js", "F3", ".js"⟩],
            [Msg.found "top.js", Msg.found "a/f1.js", Msg.found "b/f2.js",
              Msg.found "a/c/f3.js"],
            ["", "a", "b", "a/c"]⟩ :=
  ⟨fun env o r fuel p fs rest processed files msgs reqs resp h1 h2 =>
    extractLoop_success env o r fuel p fs rest processed files msgs reqs resp
      h1 h2,
    rfl⟩

/-- Claim C7 witness: the root step of the two-level tree. -/
theorem queue_fifo_and_discovery_order_witness :
    extractLoop envNested "acme" "widgets" (4 + 1) [("", [])] [] [] [] []
      = extractLoop envNested "acme" "widgets" 4
          ([] ++ listingDirs (normalizeContents (.multi
            [⟨"dir", "a", "a", ""⟩, ⟨"dir", "b", "b", ""⟩,
              ⟨"file", "top.js", "top.js", "u5"⟩])))
          ([] ++ [""])
          ([] ++ listingRecs envNested (normalizeContents (.multi
            [⟨"dir", "a", "a", ""⟩, ⟨"dir", "b", "b", ""⟩,
              ⟨"file", "top.js", "top.js", "u5"⟩])))
          ([] ++ listingMsgs envNested (normalizeContents (.multi
            [⟨"dir", "a", "a", ""⟩, ⟨"dir", "b", "b", ""⟩,
              ⟨"file", "top.js", "top.js", "u5"⟩])))
          ([] ++ [""]) :=
  queue_fifo_and_discovery_order.1 envNested "acme" "widgets" 4 "" [] [] []
    [] [] []
    (.multi [⟨"dir", "a", "a", ""⟩, ⟨"dir", "b", "b", ""⟩,
      ⟨"file", "top.js", "top.js", "u5"⟩])
    (by decide) rfl

/-- Claim C8: a listing response that is a single object is normalised by
wrapping it as a one-element list, an array is taken as is, and the walk then
treats the wrapped response exactly as it would the one-element array: on a
repository whose root response is a single file object, the call returns the
same outcome as on the same repository answering with the one-element
array. -/
theorem single_response_wrapped_as_list :
    (∀ e : Entry, normalizeContents (Listing.single e) = [e])
    ∧ (∀ es : List Entry, normalizeContents (Listing.multi es) = es)
    ∧ extract_frontend_files envSingleObj 2 "https://github.com/acme/widgets"
        = extract_frontend_files envSingleArr 2 "https://github.com/acme/widgets"
    ∧ extract_frontend_files envSingleObj 2 "https://github.com/acme/widgets"
        = some ⟨some [⟨"only.py", "print(1)", ".py"⟩],
            [Msg.found "only.py"], [""]⟩ :=
  ⟨fun _ => rfl, fun _ => rfl, rfl, rfl⟩

/-- Claim C9: extraction is deterministic in the remote tree — two remotes
answering every listing request and every content request identically yield
identical outcomes on the same URL and fuel (record set, order, notices and
request trace included); the only inputs of the computation are the remote
responses. -/
theorem extraction_deterministic (env1 env2 : Remote) (fuel : Nat)
    (url : String)
    (hlist : ∀ o r p, env1.listing o r p = env2.listing o r p)
    (hcont : ∀ u, env1.content u = env2.content u) :
    extract_frontend_files env1 fuel url
      = extract_frontend_files env2 fuel url := by
  have henv : env1 = env2 := by
    cases env1 with
    | mk l1 c1 =>
      cases env2 with
      | mk l2 c2 =>
        have hl : l1 = l2 :=
          funext fun o => funext fun r => funext fun p => hlist o r p
        have hc : c1 = c2 := funext fun u => hcont u
        rw [hl, hc]
  rw [henv]

/-- Claim C9 witness: two syntactically different pointwise-equal remotes. -/
theorem extraction_deterministic_witness :
    extract_frontend_files envExample 3 "https://github.com/acme/widgets"
      = extract_frontend_files envExampleCopy 3
          "https://github.com/acme/widgets" :=
  extraction_deterministic envExample envExampleCopy 3
    "https://github.com/acme/widgets" (fun _ _ _ => rfl) (fun _ => rfl)

/-- Claim C10: every failure is caught — a completed call always returns a
value, and that value is never the empty list: it is `none` or a non-empty
collection. In particular a malformed URL and a totally unreachable remote
both yield the `None` return (with the error notice, resp. the root warning
plus the no-matching-files warning). -/
theorem no_exception_and_no_empty_list :
    (∀ (env : Remote) (fuel : Nat) (url : String) (out : RunResult),
      extract_frontend_files env fuel url = some out → out.result ≠ some [])
    ∧ extract_frontend_files envDown 2 "https://github.com/acme"
        = some ⟨none, [Msg.extractErr], []⟩
    ∧ extract_frontend_files envDown 2 "https://github.com/acme/widgets"
        = some ⟨none, [Msg.listingWarn "", Msg.noFilesWarn], [""]⟩ := by
  refine ⟨?_, rfl, rfl⟩
  intro env fuel url out h
  cases hp : parseParts url with
  | nil =>
    rw [extract_malformed_eq env fuel url (by rw [hp]; simp)] at h
    rw [← Option.some.inj h]
    simp
  | cons a t =>
    cases t with
    | nil =>
      rw [extract_malformed_eq env fuel url (by rw [hp]; simp)] at h
      rw [← Option.some.inj h]
      simp
    | cons b t2 =>
      obtain ⟨fout, hl, hfin⟩ := extract_some_inv env fuel url a b t2 out hp h
      rw [← hfin, finishRun_result]
      by_cases hf : fout.files = []
      · rw [if_pos hf]
        simp
      · rw [if_neg hf]
        intro hc
        exact hf (Option.some.inj hc)

/-- Claim C10 witness: the worked example completes and its returned value is
not the empty list. -/
theorem no_exception_and_no_empty_list_witness :
    (⟨some [⟨"src/app.js", "console.log(1)", ".js"⟩],
      [Msg.found "src/app.js"], ["", "src"]⟩ : RunResult).result ≠ some [] :=
  no_exception_and_no_empty_list.1 envExample 3
    "https://github.com/acme/widgets" _ rfl

end UIGen
